import Mathlib

/-!
Verification development for the subtitle engine of the tgov-scraper
repository: segment loading, word-token expansion, greedy cue packing,
track assembly and SRT/VTT emission, together with the roll-call
transcript-rendering loop of notebooks/roll_call.ipynb.

Times are modelled as rationals; Python float seconds are treated as exact
rational values.  The subtitle engine itself (src/subtitles, imported by
notebooks/srt_subtitles.ipynb and notebooks/vtt_subtitles.ipynb) is not part
of the provided sources, so its definitions are modelled from the spec, as
marked in the individual doc comments.  The functions of
notebooks/roll_call.ipynb are translated from that notebook directly.
-/

namespace TGov

/-- Modelled from the spec: one utterance of the diarized transcript
(section 3, Segment): a speaker identifier (absent when unknown), raw
text, and a time span in seconds. -/
structure Segment where
  speaker_id : Option String
  text : String
  start_time : ℚ
  end_time : ℚ
deriving DecidableEq, Repr

/-- Modelled from the spec: a word token derived from a segment
(section 3, Word Token). -/
structure Token where
  text : String
  speaker_id : Option String
  start_time : ℚ
  end_time : ℚ
deriving DecidableEq, Repr

/-- Modelled from the spec: one renderable subtitle cue (section 3, Cue).
The cue keeps its token list; its rendered text is derived by
`cueRawText` / `cueDisplayText`. -/
structure Cue where
  index : ℕ
  start_time : ℚ
  end_time : ℚ
  speaker_id : Option String
  tokens : List Token
deriving DecidableEq, Repr

/-- Modelled from the spec: the output format tag (srt | vtt). -/
inductive SubFormat where
  | srt
  | vtt
deriving DecidableEq, Repr

/-- Modelled from the spec: the configuration surface of the engine
(section 6): format, max_duration (seconds), max_length (characters) and
the include_speaker_prefix flag, here called `speakerLabelOn`. -/
structure SubtitleConfig where
  max_duration : ℚ
  max_length : ℕ
  speakerLabelOn : Bool
  format : SubFormat
deriving DecidableEq, Repr

/-- Modelled from the spec: a finished track: ordered cues plus the format
tag and rendering option (section 3, Track). -/
structure SubtitleTrack where
  cues : List Cue
  format : SubFormat
  speakerLabelOn : Bool
deriving DecidableEq, Repr

/-- Modelled from the spec: the error taxonomy of section 7.  Schema errors
cannot arise here because the input is already well-typed. -/
inductive LoadError where
  | SchemaError
  | TimeOrderError
deriving DecidableEq, Repr

/-- A segment text that is empty or whitespace-only (dropped by the loader). -/
def isBlank (s : String) : Bool :=
  s.data.all Char.isWhitespace

/-- Loader order: nondecreasing start_time. -/
def segLe (a b : Segment) : Prop :=
  a.start_time ≤ b.start_time

instance : DecidableRel segLe := fun a b => inferInstanceAs (Decidable (a.start_time ≤ b.start_time))

/-- Modelled from the spec: the loader (section 4.1).  It fails with
TimeOrderError when any segment has end_time <= start_time, silently drops
whitespace-only segments, and returns the remaining segments sorted by
start_time. -/
def loadSegments (raw : List Segment) : Except LoadError (List Segment) :=
  if raw.any (fun s => s.end_time ≤ s.start_time) then
    Except.error LoadError.TimeOrderError
  else
    Except.ok (List.insertionSort segLe (raw.filter (fun s => !(isBlank s.text))))

/-- Maximal whitespace-separated words of a character list, along with the
character offsets [c0, c1) each word occupies; `pos` is the offset of the
first character of the list within the enclosing text. -/
def wordSpansGo (cs : List Char) (pos : ℕ) : List (String × ℕ × ℕ) :=
  match cs with
  | [] => []
  | c :: rest =>
    if c.isWhitespace then
      wordSpansGo rest (pos + 1)
    else
      let w := c :: rest.takeWhile (fun d => !d.isWhitespace)
      (String.mk w, pos, pos + w.length) :: wordSpansGo (rest.dropWhile (fun d => !d.isWhitespace)) (pos + w.length)
termination_by cs.length
decreasing_by
all_goals simp only [List.length_cons]
all_goals exact Nat.lt_succ_of_le (by first
  | exact Nat.le_refl _
  | exact (List.dropWhile_sublist _).length_le)

/-- Words of a string with their character offsets. -/
def wordSpans (s : String) : List (String × ℕ × ℕ) :=
  wordSpansGo s.data 0

/-- The whitespace-split word sequence of a string. -/
def splitWS (s : String) : List String :=
  (wordSpans s).map (fun x => x.1)

/-- Modelled from the spec: the token expander (section 4.2): each word of
the segment text receives a time span by linear interpolation over
character offsets, and inherits the segment speaker. -/
def segTokens (seg : Segment) : List Token :=
  (wordSpans seg.text).map (fun x =>
    { text := x.1
      speaker_id := seg.speaker_id
      start_time := seg.start_time + ((x.2.1 : ℚ) / (seg.text.length : ℚ)) * (seg.end_time - seg.start_time)
      end_time := seg.start_time + ((x.2.2 : ℚ) / (seg.text.length : ℚ)) * (seg.end_time - seg.start_time) })

/-- The flat, segment-ordered token stream of a segment sequence. -/
def tokenStream (segs : List Segment) : List Token :=
  segs.flatMap segTokens

/-- Space-join of a list of strings, as Python str.join with a one-space
separator. -/
def joinSp : List String → String
  | [] => ("")
  | [w] => w
  | w :: ws => w ++ " " ++ joinSp ws

/-- Modelled from the spec: the open cue buffer of the greedy packer
(section 4.3). -/
structure Buf where
  start_time : ℚ
  end_time : ℚ
  speaker_id : Option String
  tokens : List Token
deriving DecidableEq, Repr

/-- The buffer text: space-joined token texts. -/
def bufText (b : Buf) : String :=
  joinSp (b.tokens.map Token.text)

/-- Length contributed by the rendered speaker label, counted toward the
max_length budget when the option is on and the speaker is known. -/
def labelLen (cfg : SubtitleConfig) (spk : Option String) : ℕ :=
  if cfg.speakerLabelOn then
    match spk with
    | some s => s.length + 2
    | none => 0
  else 0

/-- A fresh buffer seeded with one token. -/
def seedBuf (t : Token) : Buf :=
  { start_time := t.start_time, end_time := t.end_time, speaker_id := t.speaker_id, tokens := [t] }

/-- Closing a buffer yields a cue (index assigned later, at assembly). -/
def closeBuf (b : Buf) : Cue :=
  { index := 0, start_time := b.start_time, end_time := b.end_time, speaker_id := b.speaker_id, tokens := b.tokens }

/-- Modelled from the spec: one forward greedy pass of the cue segmenter
(section 4.3): seed an empty buffer unconditionally; force a break on a
speaker change; otherwise append the token unless the candidate duration
(token end - buffer start) or candidate text length (with the label
budget) would exceed its limit; close the remaining buffer at stream
end. -/
def packTokensGo (cfg : SubtitleConfig) : Option Buf → List Token → List Cue
  | none, [] => []
  | some b, [] => [closeBuf b]
  | none, t :: ts => packTokensGo cfg (some (seedBuf t)) ts
  | some b, t :: ts =>
    if t.speaker_id ≠ b.speaker_id then
      closeBuf b :: packTokensGo cfg (some (seedBuf t)) ts
    else if cfg.max_duration < t.end_time - b.start_time ∨
        cfg.max_length < (bufText b ++ " " ++ t.text).length + labelLen cfg b.speaker_id then
      closeBuf b :: packTokensGo cfg (some (seedBuf t)) ts
    else
      packTokensGo cfg (some { b with end_time := t.end_time, tokens := b.tokens ++ [t] }) ts

/-- The cue segmenter applied to a token stream. -/
def packTokens (cfg : SubtitleConfig) (ts : List Token) : List Cue :=
  packTokensGo cfg none ts

/-- Modelled from the spec: the track assembler assigns 1-based sequential
indices (section 4.4). -/
def assignIdx : ℕ → List Cue → List Cue
  | _, [] => []
  | n, c :: cs => { c with index := n } :: assignIdx (n + 1) cs

/-- Modelled from the spec: build the track from validated segments:
expand tokens, pack cues, assign indices (sections 4.2-4.4). -/
def buildTrack (cfg : SubtitleConfig) (segs : List Segment) : SubtitleTrack :=
  { cues := assignIdx 1 (packTokens cfg (tokenStream segs))
    format := cfg.format
    speakerLabelOn := cfg.speakerLabelOn }

/-- Modelled from the spec: the full pipeline up to the structured track:
load and validate, then segment and assemble.  All errors are raised
before any segmentation work. -/
def create_track (cfg : SubtitleConfig) (raw : List Segment) : Except LoadError SubtitleTrack :=
  (loadSegments raw).map (buildTrack cfg)

/-- The raw cue text: space-joined token texts, no speaker label. -/
def cueRawText (c : Cue) : String :=
  joinSp (c.tokens.map Token.text)

/-- The rendered cue text: the raw text, with the speaker label prepended
when the option is on and the speaker is known. -/
def cueDisplayText (withLabel : Bool) (c : Cue) : String :=
  match c.speaker_id with
  | some s => if withLabel then s ++ ": " ++ cueRawText c else cueRawText c
  | none => cueRawText c

/-- Exactly two decimal digits, for values below 100. -/
def twoDig (n : ℕ) : String :=
  String.mk [Nat.digitChar (n / 10), Nat.digitChar (n % 10)]

/-- Exactly three decimal digits, for values below 1000. -/
def threeDig (n : ℕ) : String :=
  String.mk [Nat.digitChar (n / 100), Nat.digitChar (n / 10 % 10), Nat.digitChar (n % 10)]

/-- Hours field: zero-padded to width at least two, unbounded above. -/
def hoursRepr (n : ℕ) : String :=
  if n < 10 then ("0") ++ Nat.repr n else Nat.repr n

/-- Total milliseconds (floored) of a nonnegative time in seconds. -/
def msTotal (t : ℚ) : ℕ :=
  (⌊t * 1000⌋).toNat

/-- Modelled from the spec: an HH:MM:SS / milliseconds timestamp with the
given millisecond separator (section 4.5). -/
def timeStamp (sep : String) (t : ℚ) : String :=
  hoursRepr (msTotal t / 3600000) ++ ":" ++ twoDig (msTotal t % 3600000 / 60000) ++ ":" ++
    twoDig (msTotal t % 60000 / 1000) ++ sep ++ threeDig (msTotal t % 1000)

/-- SRT timestamp: comma millisecond separator. -/
def srtTimeStamp (t : ℚ) : String :=
  timeStamp (",") t

/-- VTT timestamp: period millisecond separator. -/
def vttTimeStamp (t : ℚ) : String :=
  timeStamp (".") t

/-- Modelled from the spec: SRT emission (section 4.5): per cue an index
line, a timestamp line, the rendered text and a blank separator line. -/
def srtRender (withLabel : Bool) (cues : List Cue) : String :=
  cues.foldl
    (fun acc c =>
      acc ++ Nat.repr c.index ++ "\n" ++ srtTimeStamp c.start_time ++ " --> " ++
        srtTimeStamp c.end_time ++ "\n" ++ cueDisplayText withLabel c ++ "\n\n")
    ("")

/-- Modelled from the spec: VTT emission (section 4.5): a WEBVTT header
line and a blank line, then per cue a timestamp line (no cue-number
line), the rendered text and a blank separator line. -/
def vttRender (withLabel : Bool) (cues : List Cue) : String :=
  cues.foldl
    (fun acc c =>
      acc ++ vttTimeStamp c.start_time ++ " --> " ++ vttTimeStamp c.end_time ++ "\n" ++
        cueDisplayText withLabel c ++ "\n\n")
    ("WEBVTT\n\n")

/-- The serialized content of a track, dispatched on the format tag. -/
def trackContent (tr : SubtitleTrack) : String :=
  match tr.format with
  | SubFormat.srt => srtRender tr.speakerLabelOn tr.cues
  | SubFormat.vtt => vttRender tr.speakerLabelOn tr.cues

/-- Modelled from the spec: the full pipeline to serialized subtitle text. -/
def create_subtitles (cfg : SubtitleConfig) (raw : List Segment) : Except LoadError String :=
  (create_track cfg raw).map trackContent

/-- Spec-shaped SRT block of one cue, following the words of section 4.5,
for comparison with `srtRender`. -/
def srtBlockSpec (withLabel : Bool) (c : Cue) : String :=
  Nat.repr c.index ++ "\n" ++ srtTimeStamp c.start_time ++ " --> " ++ srtTimeStamp c.end_time ++
    "\n" ++ cueDisplayText withLabel c ++ "\n\n"

/-- Spec-shaped VTT block of one cue, following the words of section 4.5,
for comparison with `vttRender`. -/
def vttBlockSpec (withLabel : Bool) (c : Cue) : String :=
  vttTimeStamp c.start_time ++ " --> " ++ vttTimeStamp c.end_time ++ "\n" ++
    cueDisplayText withLabel c ++ "\n\n"


/-- The word sequence a track displays: the whitespace-split words of the
raw (label-free) cue texts, in cue order. -/
def trackWords (tr : SubtitleTrack) : List String :=
  tr.cues.flatMap (fun c => splitWS (cueRawText c))

/-- Well-formedness of a word-span list: spans are ordered, nonempty,
bounded by [pos, stop), and each word length matches its span. -/
def spansOK : ℕ → ℕ → List (String × ℕ × ℕ) → Prop
  | _, _, [] => True
  | pos, stop, x :: rest =>
    pos ≤ x.2.1 ∧ x.2.1 < x.2.2 ∧ x.2.2 ≤ stop ∧ x.1.length = x.2.2 - x.2.1 ∧ spansOK x.2.2 stop rest

/-- A generous configuration: limits far above every concrete example. -/
def cfgWide : SubtitleConfig :=
  { max_duration := 100, max_length := 1000, speakerLabelOn := false, format := SubFormat.srt }

/-- A validated but unsorted input: the loader reorders it by start_time. -/
def rawUnsorted : List Segment :=
  [{ speaker_id := some ("A"), text := ("b"), start_time := 2, end_time := 3 },
   { speaker_id := some ("A"), text := ("a"), start_time := 0, end_time := 1 }]

/-- A validated input whose segment time spans overlap. -/
def rawOverlap : List Segment :=
  [{ speaker_id := some ("A"), text := ("a b"), start_time := 0, end_time := 10 },
   { speaker_id := some ("B"), text := ("c"), start_time := 1, end_time := 2 }]

/-- Two back-to-back segments with different speakers (spec section 8,
scenario 2). -/
def rawTwoSpeakers : List Segment :=
  [{ speaker_id := some ("A"), text := ("hi there"), start_time := 0, end_time := 2 },
   { speaker_id := some ("B"), text := ("how are you"), start_time := 2, end_time := 4 }]

/-- A two-word segment: its interpolated tokens leave a gap over the
separating space. -/
def segGap : Segment :=
  { speaker_id := some ("A"), text := ("hi there"), start_time := 0, end_time := 8 }

/-- A concrete two-token stream for exercising the packer bounds. -/
def tokHi : Token :=
  { text := ("hi"), speaker_id := some ("A"), start_time := 0, end_time := 1 }

/-- Second token of the concrete stream. -/
def tokYo : Token :=
  { text := ("yo"), speaker_id := some ("A"), start_time := 1, end_time := 2 }

/-- The cue the packer produces from the two-token stream. -/
def cuePair : Cue :=
  { index := 0, start_time := 0, end_time := 2, speaker_id := some ("A"),
    tokens := [tokHi, tokYo] }

/-- Concatenation of a list of strings (no separator). -/
def strConcat : List String → String
  | [] => ("")
  | x :: rest => x ++ strConcat rest

/-- A schema-valid input with a time-order violation: end_time = start_time. -/
def rawBad : List Segment :=
  [{ speaker_id := some ("A"), text := ("x"), start_time := 5, end_time := 5 }]

/-- A minimal validated one-segment input. -/
def rawOneHi : List Segment :=
  [{ speaker_id := some ("A"), text := ("hi"), start_time := 0, end_time := 1 }]

end TGov

namespace RollCall

/-- Translated from notebooks/roll_call.ipynb: format_timestamp converts
seconds to HH:MM:SS via Python floor division and modulo; int() truncation
on the nonnegative inputs of the notebook is floor. -/
def zfill2 (n : ℤ) : String :=
  if 0 ≤ n ∧ n < 10 then ("0") ++ n.repr else n.repr

/-- Translated from notebooks/roll_call.ipynb (format_timestamp):
hours = int(seconds // 3600), minutes = int((seconds % 3600) // 60),
secs = int(seconds % 60), rendered zero-padded as HH:MM:SS. -/
def format_timestamp (seconds : ℚ) : String :=
  zfill2 ⌊seconds / 3600⌋ ++ ":" ++
    zfill2 ⌊(seconds - ((3600 * ⌊seconds / 3600⌋ : ℤ) : ℚ)) / 60⌋ ++ ":" ++
    zfill2 ⌊seconds - ((60 * ⌊seconds / 60⌋ : ℤ) : ℚ)⌋

/-- One transcript segment as consumed by the roll-call rendering loop:
speaker (empty string when the diarizer left it blank), text, start. -/
structure ScriptSeg where
  speaker : String
  text : String
  start : ℚ
deriving DecidableEq, Repr

/-- One rendered script block: the run's first start time, the speaker,
and the space-joined stripped texts of the run (the notebook additionally
wraps this text to 80 columns for HTML display). -/
structure ScriptBlock where
  start : ℚ
  speaker : String
  text : String
deriving DecidableEq, Repr

/-- Emission guard of the loop: Python `if current_speaker:` - a block is
emitted only for a truthy (nonempty) speaker. -/
def emitSt (spk : String) (texts : List String) (st0 : ℚ) : List ScriptBlock :=
  if spk = ("") then [] else [{ start := st0, speaker := spk, text := TGov.joinSp texts }]

/-- Translated from notebooks/roll_call.ipynb: the rendering loop over
transcript segments with state (current_speaker, current_text,
current_start); a `none` state models current_speaker = None. -/
def rollCallGo : Option (String × List String × ℚ) → List ScriptSeg → List ScriptBlock
  | none, [] => []
  | some (spk, texts, st0), [] => emitSt spk texts st0
  | none, seg :: rest => rollCallGo (some (seg.speaker, [seg.text.trim], seg.start)) rest
  | some (spk, texts, st0), seg :: rest =>
    if spk ≠ seg.speaker then
      emitSt spk texts st0 ++ rollCallGo (some (seg.speaker, [seg.text.trim], seg.start)) rest
    else
      rollCallGo (some (spk, texts ++ [seg.text.trim], st0)) rest

/-- The whole roll-call script-rendering loop, from the initial
current_speaker = None state. -/
def rollCallScript (segs : List ScriptSeg) : List ScriptBlock :=
  rollCallGo none segs

/-- Maximal runs of consecutive segments sharing a speaker, each as the
head segment plus the remaining segments of the run. -/
def speakerRuns : List ScriptSeg → List (ScriptSeg × List ScriptSeg)
  | [] => []
  | s :: rest =>
    match speakerRuns rest with
    | [] => [(s, [])]
    | (h, tl) :: more =>
      if h.speaker = s.speaker then (s, h :: tl) :: more else (s, []) :: (h, tl) :: more

/-- The block a run renders to: timestamp from the run's first segment,
text the space-join of the stripped texts; omitted for a falsy speaker. -/
def runBlock (run : ScriptSeg × List ScriptSeg) : Option ScriptBlock :=
  if run.1.speaker = ("") then none
  else some { start := run.1.start, speaker := run.1.speaker, text := TGov.joinSp ((run.1 :: run.2).map (fun s => s.text.trim)) }

end RollCall

namespace TGov

theorem floor_div_natCast (a : ℚ) (n : ℕ) (ha : 0 ≤ a) : ⌊a / (n : ℚ)⌋ = ⌊a⌋ / (n : ℤ) := by
  have h1 : 0 ≤ a / (n : ℚ) := div_nonneg ha (by positivity)
  have h2 : ⌊a / (n : ℚ)⌋ = ((⌊a / (n : ℚ)⌋₊ : ℕ) : ℤ) := by
    rw [← Int.floor_toNat, Int.toNat_of_nonneg (Int.floor_nonneg.mpr h1)]
  have h3 : ⌊a⌋ = ((⌊a⌋₊ : ℕ) : ℤ) := by
    rw [← Int.floor_toNat, Int.toNat_of_nonneg (Int.floor_nonneg.mpr ha)]
  rw [h2, Nat.floor_div_nat a n, h3, Int.ofNat_tdiv]
  exact Int.tdiv_eq_ediv (by positivity) (by positivity)

end TGov

namespace RollCall

theorem format_timestamp_depends_only_on_floor (s : ℚ) (hs : 0 ≤ s) :
    format_timestamp s =
      zfill2 (⌊s⌋ / 3600) ++ ":" ++ zfill2 (⌊s⌋ % 3600 / 60) ++ ":" ++ zfill2 (⌊s⌋ % 60) := by
  have c3600 : ((3600 : ℚ)) = ((3600 : ℕ) : ℚ) := by norm_num
  have c60 : ((60 : ℚ)) = ((60 : ℕ) : ℚ) := by norm_num
  have hH : ⌊s / 3600⌋ = ⌊s⌋ / 3600 := by
    rw [c3600, TGov.floor_div_natCast s 3600 hs]; norm_num
  have hq : ((3600 * ⌊s / 3600⌋ : ℤ) : ℚ) ≤ s := by
    have h1 : ((⌊s / 3600⌋ : ℤ) : ℚ) ≤ s / 3600 := Int.floor_le _
    have h2 : ((⌊s / 3600⌋ : ℤ) : ℚ) * 3600 ≤ (s / 3600) * 3600 := by
      exact mul_le_mul_of_nonneg_right h1 (by norm_num)
    push_cast
    push_cast at h2
    calc (3600 : ℚ) * ⌊s / 3600⌋ = (⌊s / 3600⌋ : ℚ) * 3600 := by ring
    _ ≤ (s / 3600) * 3600 := h2
    _ = s := by field_simp
  have hM : ⌊(s - ((3600 * ⌊s / 3600⌋ : ℤ) : ℚ)) / 60⌋ = ⌊s⌋ % 3600 / 60 := by
    have hx : (0 : ℚ) ≤ s - ((3600 * ⌊s / 3600⌋ : ℤ) : ℚ) := by linarith
    rw [c60, TGov.floor_div_natCast _ 60 hx, Int.floor_sub_int, hH]
    have : ⌊s⌋ - 3600 * (⌊s⌋ / 3600) = ⌊s⌋ % 3600 := (Int.emod_def ⌊s⌋ 3600).symm
    rw [this]
    norm_num
  have hS : ⌊s - ((60 * ⌊s / 60⌋ : ℤ) : ℚ)⌋ = ⌊s⌋ % 60 := by
    have h60 : ⌊s / 60⌋ = ⌊s⌋ / 60 := by
      rw [c60, TGov.floor_div_natCast s 60 hs]; norm_num
    rw [Int.floor_sub_int, h60]
    exact (Int.emod_def ⌊s⌋ 60).symm
  rw [format_timestamp, hM, hS, hH]

end RollCall

/-- C9: for nonnegative seconds s, format_timestamp renders the zero-padded
HH:MM:SS string with HH = floor(s/3600), MM = floor((s mod 3600)/60),
SS = floor(s mod 60) (where mod is the Python float modulo
s mod m = s - m*floor(s/m)); the fractional part is discarded and no
millisecond field is emitted, so any two nonnegative times with the same
integer second render identically. -/
theorem claim_C9_format_timestamp (s : ℚ) (hs : 0 ≤ s) :
    RollCall.format_timestamp s =
      RollCall.zfill2 ⌊s / 3600⌋ ++ ":" ++
        RollCall.zfill2 ⌊(s - ((3600 * ⌊s / 3600⌋ : ℤ) : ℚ)) / 60⌋ ++ ":" ++
        RollCall.zfill2 ⌊s - ((60 * ⌊s / 60⌋ : ℤ) : ℚ)⌋ ∧
    RollCall.format_timestamp s =
      RollCall.zfill2 (⌊s⌋ / 3600) ++ ":" ++ RollCall.zfill2 (⌊s⌋ % 3600 / 60) ++ ":" ++
        RollCall.zfill2 (⌊s⌋ % 60) ∧
    (∀ s2 : ℚ, 0 ≤ s2 → ⌊s2⌋ = ⌊s⌋ → RollCall.format_timestamp s2 = RollCall.format_timestamp s) := by
  refine ⟨rfl, RollCall.format_timestamp_depends_only_on_floor s hs, ?_⟩
  intro s2 hs2 hfl
  rw [RollCall.format_timestamp_depends_only_on_floor s2 hs2,
    RollCall.format_timestamp_depends_only_on_floor s hs, hfl]

/-- C9 witness: at s = 3725.25 and s2 = 3725.75 (same integer second 3725,
one hour 2 minutes 5 seconds) the rendering is identical. -/
theorem claim_C9_format_timestamp_witness :
    (0 : ℚ) ≤ (3725.25 : ℚ) ∧
      RollCall.format_timestamp (3725.75 : ℚ) = RollCall.format_timestamp (3725.25 : ℚ) :=
  ⟨by norm_num,
    (claim_C9_format_timestamp (3725.25 : ℚ) (by norm_num)).2.2 (3725.75 : ℚ) (by norm_num)
      (by norm_num)⟩

namespace RollCall

theorem filterMap_runBlock_cons (h : ScriptSeg) (tl : List ScriptSeg)
    (more : List (ScriptSeg × List ScriptSeg)) :
    ((h, tl) :: more).filterMap runBlock =
      emitSt h.speaker ((h :: tl).map (fun s => s.text.trim)) h.start ++ more.filterMap runBlock := by
  rw [List.filterMap_cons]
  by_cases hsp : h.speaker = ("")
  · simp [runBlock, emitSt, hsp]
  · simp [runBlock, emitSt, hsp]

theorem rollCallGo_some (segs : List ScriptSeg) : ∀ (spk : String) (texts : List String) (st0 : ℚ),
    rollCallGo (some (spk, texts, st0)) segs =
      (match speakerRuns segs with
      | [] => emitSt spk texts st0
      | (h, tl) :: more =>
        if h.speaker = spk then
          emitSt spk (texts ++ (h :: tl).map (fun s => s.text.trim)) st0 ++ more.filterMap runBlock
        else
          emitSt spk texts st0 ++ (((h, tl) :: more).filterMap runBlock)) := by
  induction segs with
  | nil => intro spk texts st0; rfl
  | cons s rest ih =>
    intro spk texts st0
    rw [rollCallGo]
    by_cases hbreak : spk = s.speaker
    · rw [if_neg (fun hc => hc hbreak)]
      rw [ih spk (texts ++ [s.text.trim]) st0]
      cases hrr : speakerRuns rest with
      | nil => simp [speakerRuns, hrr, hbreak.symm]
      | cons p more =>
        obtain ⟨h, tl⟩ := p
        by_cases hh : h.speaker = s.speaker
        · simp [speakerRuns, hrr, hh, hbreak.symm]
        · have hne : ¬ (h.speaker = spk) := fun hc => hh (hc.trans hbreak)
          simp [speakerRuns, hrr, hne, hbreak.symm, hh]
    · rw [if_pos hbreak]
      rw [ih s.speaker [s.text.trim] s.start]
      have hne : ¬ (s.speaker = spk) := fun hc => hbreak hc.symm
      cases hrr : speakerRuns rest with
      | nil => simp [speakerRuns, hrr, hne, filterMap_runBlock_cons]
      | cons p more =>
        obtain ⟨h, tl⟩ := p
        by_cases hh : h.speaker = s.speaker
        · simp [speakerRuns, hrr, hh, hne, filterMap_runBlock_cons]
        · simp [speakerRuns, hrr, hh, hne, filterMap_runBlock_cons]

end RollCall

/-- C10: the roll-call script-rendering loop emits one block per maximal
run of consecutive segments sharing a speaker, with the block timestamp
taken from the run first segment start and the block text the space-join
of the stripped segment texts; a run is rendered only when its speaker is
truthy, so runs whose speaker is the empty string are silently omitted. -/
theorem claim_C10_roll_call_blocks (segs : List RollCall.ScriptSeg) :
    RollCall.rollCallScript segs = (RollCall.speakerRuns segs).filterMap RollCall.runBlock := by
  cases segs with
  | nil => rfl
  | cons s rest =>
    rw [RollCall.rollCallScript, RollCall.rollCallGo,
      RollCall.rollCallGo_some rest s.speaker [s.text.trim] s.start]
    cases hrr : RollCall.speakerRuns rest with
    | nil =>
      simp [RollCall.speakerRuns, hrr, RollCall.filterMap_runBlock_cons]
    | cons p more =>
      obtain ⟨h, tl⟩ := p
      by_cases hh : h.speaker = s.speaker
      · simp [RollCall.speakerRuns, hrr, hh, RollCall.filterMap_runBlock_cons]
      · simp [RollCall.speakerRuns, hrr, hh, RollCall.filterMap_runBlock_cons]

/-- C7: an empty segment list is not an error: it yields an empty track,
for which the SRT emitter returns the empty string and the VTT emitter
returns exactly the WEBVTT header plus one blank line. -/
theorem claim_C7_empty_input (cfg : TGov.SubtitleConfig) :
    TGov.create_track cfg [] = Except.ok (TGov.buildTrack cfg []) ∧
    (TGov.buildTrack cfg []).cues = [] ∧
    (∀ b : Bool, TGov.srtRender b [] = ("") ∧ TGov.vttRender b [] = ("WEBVTT\n\n")) :=
  ⟨rfl, rfl, fun _ => ⟨rfl, rfl⟩⟩

namespace TGov

theorem takeWhile_append_all {α : Type} (p : α → Bool) (w cs : List α)
    (h : ∀ a ∈ w, p a = true) : (w ++ cs).takeWhile p = w ++ cs.takeWhile p := by
  induction w with
  | nil => simp
  | cons a w ih =>
    have ha : p a = true := h a (List.mem_cons_self a w)
    simp only [List.cons_append, List.takeWhile_cons, ha, if_true]
    rw [ih (fun x hx => h x (List.mem_cons_of_mem a hx))]

theorem dropWhile_append_all {α : Type} (p : α → Bool) (w cs : List α)
    (h : ∀ a ∈ w, p a = true) : (w ++ cs).dropWhile p = cs.dropWhile p := by
  induction w with
  | nil => simp
  | cons a w ih =>
    have ha : p a = true := h a (List.mem_cons_self a w)
    simp only [List.cons_append, List.dropWhile_cons, ha, if_true]
    exact ih (fun x hx => h x (List.mem_cons_of_mem a hx))

theorem spansOK_weaken : ∀ {l : List (String × ℕ × ℕ)} {stop pos pos2 : ℕ},
    pos2 ≤ pos → spansOK pos stop l → spansOK pos2 stop l := by
  intro l stop pos pos2 hle h
  cases l with
  | nil => trivial
  | cons x rest =>
    obtain ⟨h1, h2⟩ := h
    exact ⟨le_trans hle h1, h2⟩

theorem wordSpansGo_spansOK_fuel : ∀ (n : ℕ) (cs : List Char) (pos : ℕ), cs.length ≤ n →
    spansOK pos (pos + cs.length) (wordSpansGo cs pos) := by
  intro n
  induction n with
  | zero =>
    intro cs pos hn
    have hcs : cs = [] := List.eq_nil_of_length_eq_zero (Nat.le_antisymm hn (Nat.zero_le _))
    subst hcs
    rw [wordSpansGo]
    trivial
  | succ n ih =>
    intro cs pos hn
    cases cs with
    | nil => rw [wordSpansGo]; trivial
    | cons c rest =>
      rw [wordSpansGo]
      by_cases hws : c.isWhitespace = true
      · simp only [hws, if_true]
        have hrec := ih rest (pos + 1) (by simp at hn; omega)
        have hstop : pos + (c :: rest).length = (pos + 1) + rest.length := by
          simp [List.length_cons]; omega
        rw [hstop]
        exact spansOK_weaken (Nat.le_succ pos) hrec
      · simp only [hws, if_false, Bool.false_eq_true]
        have htw : (rest.takeWhile (fun d => !d.isWhitespace)).length ≤ rest.length :=
          (List.takeWhile_sublist _).length_le
        have hsum : (rest.takeWhile (fun d => !d.isWhitespace)).length +
            (rest.dropWhile (fun d => !d.isWhitespace)).length = rest.length := by
          have := congrArg List.length
            (List.takeWhile_append_dropWhile (p := fun d => !d.isWhitespace) (l := rest))
          rwa [List.length_append] at this
        have hrec := ih (rest.dropWhile (fun d => !d.isWhitespace))
          (pos + (c :: rest.takeWhile (fun d => !d.isWhitespace)).length)
          (by simp at hn ⊢; omega)
        refine ⟨le_refl pos, ?_, ?_, ?_, ?_⟩
        · simp [List.length_cons]
        · simp [List.length_cons]
          omega
        · simp [String.length]
        · have hstop : pos + (c :: rest).length =
              (pos + (c :: rest.takeWhile (fun d => !d.isWhitespace)).length) +
                (rest.dropWhile (fun d => !d.isWhitespace)).length := by
            simp [List.length_cons]
            omega
          rw [hstop]
          exact hrec

theorem wordSpansGo_spansOK (cs : List Char) (pos : ℕ) :
    spansOK pos (pos + cs.length) (wordSpansGo cs pos) :=
  wordSpansGo_spansOK_fuel cs.length cs pos (le_refl _)

theorem spansOK_facts : ∀ (l : List (String × ℕ × ℕ)) (pos stop : ℕ), spansOK pos stop l →
    List.Chain' (fun x y => x.2.2 ≤ y.2.1) l ∧
      ∀ x ∈ l, pos ≤ x.2.1 ∧ x.2.1 < x.2.2 ∧ x.2.2 ≤ stop ∧ x.1.length = x.2.2 - x.2.1 := by
  intro l
  induction l with
  | nil => intro pos stop _; exact ⟨List.chain'_nil, by simp⟩
  | cons x rest ih =>
    intro pos stop h
    obtain ⟨h1, h2, h3, h4, h5⟩ := h
    obtain ⟨ihc, ihm⟩ := ih x.2.2 stop h5
    constructor
    · refine List.Chain'.cons' ihc ?_
      intro y hy
      cases hrest : rest with
      | nil => rw [hrest] at hy; simp at hy
      | cons z zs =>
        rw [hrest] at hy h5
        simp at hy
        obtain ⟨g1, _⟩ := h5
        rw [← hy]
        exact g1
    · intro y hy
      rcases List.mem_cons.mp hy with hcase | hcase
      · rw [hcase]; exact ⟨h1, h2, h3, h4⟩
      · obtain ⟨g1, g2, g3, g4⟩ := ihm y hcase
        exact ⟨le_trans h1 (le_trans (le_of_lt h2) g1), g2, g3, g4⟩

theorem wordSpansGo_words_fuel : ∀ (n : ℕ) (cs : List Char) (pos : ℕ), cs.length ≤ n →
    ∀ x ∈ wordSpansGo cs pos, x.1.data ≠ [] ∧ ∀ ch ∈ x.1.data, ch.isWhitespace = false := by
  intro n
  induction n with
  | zero =>
    intro cs pos hn
    have hcs : cs = [] := List.eq_nil_of_length_eq_zero (Nat.le_antisymm hn (Nat.zero_le _))
    subst hcs
    rw [wordSpansGo]
    simp
  | succ n ih =>
    intro cs pos hn
    cases cs with
    | nil => rw [wordSpansGo]; simp
    | cons c rest =>
      rw [wordSpansGo]
      by_cases hws : c.isWhitespace = true
      · simp only [hws, if_true]
        exact ih rest (pos + 1) (by simp at hn; omega)
      · simp only [hws, if_false, Bool.false_eq_true]
        intro x hx
        rcases List.mem_cons.mp hx with hcase | hcase
        · rw [hcase]
          constructor
          · simp
          · intro ch hch
            rcases List.mem_cons.mp hch with hc2 | hc2
            · rw [hc2]
              exact Bool.eq_false_iff.mpr hws
            · have := List.mem_takeWhile_imp hc2
              simpa using this
        · have hdw : (rest.dropWhile (fun d => !d.isWhitespace)).length ≤ rest.length :=
            (List.dropWhile_sublist _).length_le
          exact ih (rest.dropWhile (fun d => !d.isWhitespace)) _ (by simp at hn; omega) x hcase

theorem wordSpansGo_words (cs : List Char) (pos : ℕ) :
    ∀ x ∈ wordSpansGo cs pos, x.1.data ≠ [] ∧ ∀ ch ∈ x.1.data, ch.isWhitespace = false :=
  wordSpansGo_words_fuel cs.length cs pos (le_refl _)

end TGov

namespace TGov

theorem joinSp_cons2 (w w2 : String) (ws : List String) :
    joinSp (w :: w2 :: ws) = w ++ " " ++ joinSp (w2 :: ws) := rfl

theorem wordSpansGo_word_block (w cs : List Char) (pos : ℕ) (hw : w ≠ [])
    (hall : ∀ ch ∈ w, ch.isWhitespace = false)
    (hcs : cs = [] ∨ ∃ d cs2, cs = d :: cs2 ∧ d.isWhitespace = true) :
    wordSpansGo (w ++ cs) pos =
      (String.mk w, pos, pos + w.length) :: wordSpansGo cs (pos + w.length) := by
  cases w with
  | nil => exact absurd rfl hw
  | cons c wrest =>
    rw [List.cons_append, wordSpansGo]
    have hc : c.isWhitespace = false := hall c (List.mem_cons_self c wrest)
    have hwr : ∀ a ∈ wrest, (fun d => !d.isWhitespace) a = true := fun a ha => by
      simp [hall a (List.mem_cons_of_mem c ha)]
    have htw : (wrest ++ cs).takeWhile (fun d => !d.isWhitespace) = wrest := by
      rw [takeWhile_append_all _ wrest cs hwr]
      rcases hcs with h | ⟨d, cs2, hceq, hd⟩
      · simp [h]
      · subst hceq
        simp [List.takeWhile_cons, hd]
    have hdw : (wrest ++ cs).dropWhile (fun d => !d.isWhitespace) = cs := by
      rw [dropWhile_append_all _ wrest cs hwr]
      rcases hcs with h | ⟨d, cs2, hceq, hd⟩
      · simp [h]
      · subst hceq
        simp [List.dropWhile_cons, hd]
    simp only [hc, Bool.false_eq_true, if_false, htw, hdw]

theorem wordSpansGo_joinSp (ws : List String)
    (h : ∀ w ∈ ws, w.data ≠ [] ∧ ∀ ch ∈ w.data, ch.isWhitespace = false) :
    ∀ pos, (wordSpansGo (joinSp ws).data pos).map (fun x => x.1) = ws := by
  induction ws with
  | nil =>
    intro pos
    rw [joinSp, show (("") : String).data = [] from rfl, wordSpansGo]
    rfl
  | cons w ws ih =>
    cases ws with
    | nil =>
      intro pos
      obtain ⟨hne, hws⟩ := h w (List.mem_cons_self w [])
      have hblock := wordSpansGo_word_block w.data [] pos hne hws (Or.inl rfl)
      rw [List.append_nil] at hblock
      rw [joinSp, hblock, wordSpansGo]
      rfl
    | cons w2 ws2 =>
      intro pos
      obtain ⟨hne, hws⟩ := h w (List.mem_cons_self w (w2 :: ws2))
      have hdata : (joinSp (w :: w2 :: ws2)).data =
          w.data ++ (' ' :: (joinSp (w2 :: ws2)).data) := by
        rw [joinSp_cons2]
        rw [String.data_append, String.data_append]
        rw [show ((" ") : String).data = [' '] from by decide]
        simp
      have hblock := wordSpansGo_word_block w.data (' ' :: (joinSp (w2 :: ws2)).data) pos hne hws
        (Or.inr ⟨' ', (joinSp (w2 :: ws2)).data, rfl, by decide⟩)
      have hsp : wordSpansGo (' ' :: (joinSp (w2 :: ws2)).data) (pos + w.data.length) =
          wordSpansGo ((joinSp (w2 :: ws2)).data) (pos + w.data.length + 1) := by
        rw [wordSpansGo]
        simp [show (' ').isWhitespace = true from by decide]
      rw [show joinSp (w :: w2 :: ws2) = String.mk (joinSp (w :: w2 :: ws2)).data from rfl]
      rw [hdata, hblock, List.map_cons, hsp, ih (fun x hx => h x (List.mem_cons_of_mem w hx))]

theorem splitWS_joinSp (ws : List String)
    (h : ∀ w ∈ ws, w.data ≠ [] ∧ ∀ ch ∈ w.data, ch.isWhitespace = false) :
    splitWS (joinSp ws) = ws := by
  rw [splitWS, wordSpans]
  exact wordSpansGo_joinSp ws h 0

theorem wordSpansGo_all_ws : ∀ (cs : List Char), (∀ c ∈ cs, c.isWhitespace = true) →
    ∀ pos, wordSpansGo cs pos = [] := by
  intro cs
  induction cs with
  | nil => intro _ pos; rw [wordSpansGo]
  | cons c rest ih =>
    intro hall pos
    rw [wordSpansGo]
    simp only [hall c (List.mem_cons_self c rest), if_true]
    exact ih (fun d hd => hall d (List.mem_cons_of_mem c hd)) (pos + 1)

theorem splitWS_blank (s : String) (hb : isBlank s = true) : splitWS s = [] := by
  rw [splitWS, wordSpans, wordSpansGo_all_ws]
  · rfl
  · intro c hc
    exact List.all_eq_true.mp hb c hc

theorem packTokensGo_flatten (cfg : SubtitleConfig) :
    ∀ (ts : List Token) (ob : Option Buf),
      (packTokensGo cfg ob ts).flatMap Cue.tokens =
        (match ob with | none => ([] : List Token) | some b => b.tokens) ++ ts := by
  intro ts
  induction ts with
  | nil =>
    intro ob
    cases ob with
    | none => rfl
    | some b => simp [packTokensGo, closeBuf]
  | cons t ts ih =>
    intro ob
    cases ob with
    | none =>
      rw [show packTokensGo cfg none (t :: ts) = packTokensGo cfg (some (seedBuf t)) ts from rfl]
      rw [ih (some (seedBuf t))]
      simp [seedBuf]
    | some b =>
      rw [packTokensGo]
      split_ifs with h1 h2
      · rw [List.flatMap_cons, ih (some (seedBuf t))]
        simp [closeBuf, seedBuf]
      · rw [List.flatMap_cons, ih (some (seedBuf t))]
        simp [closeBuf, seedBuf]
      · rw [ih]
        simp

theorem segTokens_texts (seg : Segment) : (segTokens seg).map Token.text = splitWS seg.text := by
  simp only [segTokens, splitWS, wordSpans, List.map_map]
  rfl

theorem tokenStream_texts (segs : List Segment) :
    (tokenStream segs).map Token.text = segs.flatMap (fun s => splitWS s.text) := by
  simp only [tokenStream, List.map_flatMap]
  simp [segTokens_texts]

theorem assignIdx_flatMap_words : ∀ (n : ℕ) (cs : List Cue),
    (assignIdx n cs).flatMap (fun c => splitWS (cueRawText c)) =
      cs.flatMap (fun c => splitWS (cueRawText c)) := by
  intro n cs
  induction cs generalizing n with
  | nil => rfl
  | cons c cs ih =>
    rw [assignIdx, List.flatMap_cons, List.flatMap_cons, ih]
    rfl

theorem assignIdx_times : ∀ (n : ℕ) (cs : List Cue),
    (assignIdx n cs).map (fun c => (c.start_time, c.end_time)) =
      cs.map (fun c => (c.start_time, c.end_time)) := by
  intro n cs
  induction cs generalizing n with
  | nil => rfl
  | cons c cs ih =>
    rw [assignIdx, List.map_cons, List.map_cons, ih]

end TGov

namespace TGov

theorem flatMap_congr_mem {α β : Type} (l : List α) (f g : α → List β)
    (h : ∀ a ∈ l, f a = g a) : l.flatMap f = l.flatMap g := by
  induction l with
  | nil => rfl
  | cons a l ih =>
    rw [List.flatMap_cons, List.flatMap_cons, h a (List.mem_cons_self a l),
      ih (fun x hx => h x (List.mem_cons_of_mem a hx))]

theorem flatMap_filter_of_nil {α β : Type} (l : List α) (p : α → Bool) (f : α → List β)
    (h : ∀ a ∈ l, p a = false → f a = []) : (l.filter p).flatMap f = l.flatMap f := by
  induction l with
  | nil => rfl
  | cons a l ih =>
    rw [List.filter_cons]
    by_cases hp : p a = true
    · simp only [hp, if_true]
      rw [List.flatMap_cons, List.flatMap_cons,
        ih (fun x hx hfx => h x (List.mem_cons_of_mem a hx) hfx)]
    · have hp2 : p a = false := Bool.eq_false_iff.mpr hp
      simp only [hp2, Bool.false_eq_true, if_false]
      rw [List.flatMap_cons, h a (List.mem_cons_self a l) hp2,
        ih (fun x hx hfx => h x (List.mem_cons_of_mem a hx) hfx)]
      rfl

theorem tokenStream_text_wf (segs : List Segment) :
    ∀ t ∈ tokenStream segs, t.text.data ≠ [] ∧ ∀ ch ∈ t.text.data, ch.isWhitespace = false := by
  intro t ht
  rw [tokenStream, List.mem_flatMap] at ht
  obtain ⟨seg, hseg, ht2⟩ := ht
  rw [segTokens, List.mem_map] at ht2
  obtain ⟨x, hx, hteq⟩ := ht2
  have hw := wordSpansGo_words seg.text.data 0 x hx
  rw [← hteq]
  exact hw

theorem packTokens_token_mem (cfg : SubtitleConfig) (ts : List Token) (c : Cue)
    (hc : c ∈ packTokens cfg ts) : ∀ t ∈ c.tokens, t ∈ ts := by
  intro t ht
  have hfl := packTokensGo_flatten cfg ts none
  rw [packTokens] at hc
  have : t ∈ (packTokensGo cfg none ts).flatMap Cue.tokens :=
    List.mem_flatMap.mpr ⟨c, hc, ht⟩
  rw [hfl] at this
  simpa using this

end TGov

/-- C1 (amended): for every non-empty validated input whose segments are
already listed in nondecreasing start_time order (the loader otherwise
re-sorts them), concatenating the raw texts of the produced track's cues
in order, split on whitespace and with speaker prefixes ignored, yields
exactly the whitespace-split words of all input segments in their
original order, with no word dropped, duplicated, reordered, or
truncated. -/
theorem claim_C1_coverage (cfg : TGov.SubtitleConfig) (raw : List TGov.Segment)
    (tr : TGov.SubtitleTrack) (hne : raw ≠ []) (hsorted : List.Sorted TGov.segLe raw)
    (hok : TGov.create_track cfg raw = Except.ok tr) :
    TGov.trackWords tr = raw.flatMap (fun s => TGov.splitWS s.text) := by
  rw [TGov.create_track, TGov.loadSegments] at hok
  by_cases hbad : (raw.any (fun s => s.end_time ≤ s.start_time)) = true
  · rw [if_pos hbad] at hok
    exact absurd hok (by simp [Except.map])
  · rw [if_neg hbad] at hok
    have hfil : List.Sorted TGov.segLe (raw.filter (fun s => !(TGov.isBlank s.text))) :=
      List.Pairwise.sublist (List.filter_sublist raw) hsorted
    have hsegs : List.insertionSort TGov.segLe (raw.filter (fun s => !(TGov.isBlank s.text))) =
        raw.filter (fun s => !(TGov.isBlank s.text)) :=
      List.Sorted.insertionSort_eq hfil
    rw [hsegs] at hok
    simp only [Except.map, Except.ok.injEq] at hok
    rw [← hok]
    rw [TGov.trackWords, TGov.buildTrack]
    rw [TGov.assignIdx_flatMap_words]
    have hcue : ∀ c ∈ TGov.packTokens cfg
        (TGov.tokenStream (raw.filter (fun s => !(TGov.isBlank s.text)))),
        TGov.splitWS (TGov.cueRawText c) = c.tokens.map TGov.Token.text := by
      intro c hc
      rw [TGov.cueRawText]
      refine TGov.splitWS_joinSp (c.tokens.map TGov.Token.text) ?_
      intro w hw
      rw [List.mem_map] at hw
      obtain ⟨t, ht, hweq⟩ := hw
      have hts := TGov.packTokens_token_mem cfg _ c hc t ht
      have := TGov.tokenStream_text_wf _ t hts
      rw [← hweq]
      exact this
    rw [TGov.flatMap_congr_mem _ _ _ hcue]
    have hmapfm : (TGov.packTokens cfg
          (TGov.tokenStream (raw.filter (fun s => !(TGov.isBlank s.text))))).flatMap
          (fun c => c.tokens.map TGov.Token.text) =
        ((TGov.packTokens cfg
          (TGov.tokenStream (raw.filter (fun s => !(TGov.isBlank s.text))))).flatMap
          TGov.Cue.tokens).map TGov.Token.text := by
      rw [List.map_flatMap]
    rw [hmapfm]
    rw [TGov.packTokens, TGov.packTokensGo_flatten]
    rw [show (match (none : Option TGov.Buf) with
      | none => ([] : List TGov.Token) | some b => b.tokens) = [] from rfl]
    rw [List.nil_append]
    rw [TGov.tokenStream_texts]
    exact TGov.flatMap_filter_of_nil raw _ _ (fun s _ hfalse => by
      have hb : TGov.isBlank s.text = true := by
        have := congrArg (fun b => !b) hfalse
        simpa using this
      exact TGov.splitWS_blank s.text hb)

namespace TGov

theorem segTokens_facts (seg : Segment) (hvalid : seg.start_time < seg.end_time) :
    List.Chain' (fun a b => a.end_time ≤ b.start_time) (segTokens seg) ∧
      ∀ t ∈ segTokens seg,
        seg.start_time ≤ t.start_time ∧ t.start_time < t.end_time ∧ t.end_time ≤ seg.end_time := by
  have hspans := wordSpansGo_spansOK seg.text.data 0
  obtain ⟨hch, hmem⟩ := spansOK_facts _ _ _ hspans
  have hd : (0 : ℚ) < seg.end_time - seg.start_time := by linarith
  have hL0 : (0 : ℚ) ≤ ((seg.text.length : ℕ) : ℚ) := by positivity
  have hu : (0 : ℚ) ≤ (seg.end_time - seg.start_time) / ((seg.text.length : ℕ) : ℚ) :=
    div_nonneg (le_of_lt hd) hL0
  have hrw : ∀ c : ℚ, (c / ((seg.text.length : ℕ) : ℚ)) * (seg.end_time - seg.start_time) =
      c * ((seg.end_time - seg.start_time) / ((seg.text.length : ℕ) : ℚ)) := by
    intro c; ring
  constructor
  · rw [segTokens, List.chain'_map]
    refine hch.imp ?_
    intro a b hab
    simp only [wordSpans] at *
    rw [hrw, hrw]
    have hcast : ((a.2.2 : ℕ) : ℚ) ≤ ((b.2.1 : ℕ) : ℚ) := by exact_mod_cast hab
    have := mul_le_mul_of_nonneg_right hcast hu
    linarith
  · intro t ht
    rw [segTokens, List.mem_map] at ht
    obtain ⟨x, hx, hteq⟩ := ht
    rw [wordSpans] at hx
    obtain ⟨hb1, hb2, hb3, _⟩ := hmem x hx
    have hLpos : 0 < seg.text.data.length := by omega
    have hLQ : (0 : ℚ) < ((seg.text.length : ℕ) : ℚ) := by
      rw [String.length]
      exact_mod_cast hLpos
    have hupos : (0 : ℚ) < (seg.end_time - seg.start_time) / ((seg.text.length : ℕ) : ℚ) :=
      div_pos hd hLQ
    subst hteq
    dsimp only
    rw [hrw, hrw]
    refine ⟨?_, ?_, ?_⟩
    · have : (0 : ℚ) ≤ ((x.2.1 : ℕ) : ℚ) *
          ((seg.end_time - seg.start_time) / ((seg.text.length : ℕ) : ℚ)) := by positivity
      linarith
    · have hcast : ((x.2.1 : ℕ) : ℚ) < ((x.2.2 : ℕ) : ℚ) := by exact_mod_cast hb2
      have := mul_lt_mul_of_pos_right hcast hupos
      linarith
    · have hb3x : x.2.2 ≤ seg.text.data.length := by omega
      have hcast : ((x.2.2 : ℕ) : ℚ) ≤ ((seg.text.length : ℕ) : ℚ) := by
        rw [String.length]
        exact_mod_cast hb3x
      have hmul := mul_le_mul_of_nonneg_right hcast hu
      have hcancel : ((seg.text.length : ℕ) : ℚ) *
          ((seg.end_time - seg.start_time) / ((seg.text.length : ℕ) : ℚ)) =
          seg.end_time - seg.start_time := by
        field_simp
      rw [hcancel] at hmul
      linarith

theorem chain_sep_pairwise : ∀ (segs : List Segment),
    (∀ s ∈ segs, s.start_time < s.end_time) →
    List.Chain' (fun a b => a.end_time ≤ b.start_time) segs →
    List.Pairwise (fun a b => a.end_time ≤ b.start_time) segs := by
  intro segs
  induction segs with
  | nil => intro _ _; exact List.Pairwise.nil
  | cons s rest ih =>
    intro hvalid hch
    have hch2 : List.Chain' (fun a b => a.end_time ≤ b.start_time) rest := hch.tail
    have hpw := ih (fun x hx => hvalid x (List.mem_cons_of_mem s hx)) hch2
    refine List.pairwise_cons.mpr ⟨?_, hpw⟩
    intro y hy
    cases hrest : rest with
    | nil => rw [hrest] at hy; simp at hy
    | cons z zs =>
      rw [hrest] at hy hch hpw
      have hsz : s.end_time ≤ z.start_time := hch.rel_head
      rcases List.mem_cons.mp hy with hcase | hcase
      · rw [hcase]; exact hsz
      · have hzy : z.end_time ≤ y.start_time :=
          (List.pairwise_cons.mp hpw).1 y hcase
        have hzv : z.start_time < z.end_time :=
          hvalid z (by rw [hrest]; exact List.mem_cons_of_mem s (List.mem_cons_self z zs))
        linarith

theorem tokenStream_chain : ∀ (segs : List Segment),
    (∀ s ∈ segs, s.start_time < s.end_time) →
    List.Chain' (fun a b => a.end_time ≤ b.start_time) segs →
    List.Chain' (fun a b => a.end_time ≤ b.start_time) (tokenStream segs) ∧
      ∀ t ∈ tokenStream segs, t.start_time < t.end_time := by
  intro segs
  induction segs with
  | nil => intro _ _; exact ⟨List.chain'_nil, by simp [tokenStream]⟩
  | cons s rest ih =>
    intro hvalid hch
    have hs := segTokens_facts s (hvalid s (List.mem_cons_self s rest))
    obtain ⟨ihc, ihm⟩ := ih (fun x hx => hvalid x (List.mem_cons_of_mem s hx)) hch.tail
    have hpw := chain_sep_pairwise (s :: rest) hvalid hch
    have hsrest : ∀ y ∈ rest, s.end_time ≤ y.start_time := (List.pairwise_cons.mp hpw).1
    have hts : tokenStream (s :: rest) = segTokens s ++ tokenStream rest := by
      rw [tokenStream, List.flatMap_cons, tokenStream]
    rw [hts]
    constructor
    · refine List.Chain'.append hs.1 ihc ?_
      intro x hx y hy
      have hxmem : x ∈ segTokens s := List.mem_of_mem_getLast? hx
      have hymem : y ∈ tokenStream rest := List.mem_of_mem_head? hy
      have hxe : x.end_time ≤ s.end_time := (hs.2 x hxmem).2.2
      rw [tokenStream, List.mem_flatMap] at hymem
      obtain ⟨seg, hseg, hyseg⟩ := hymem
      have hys : seg.start_time ≤ y.start_time :=
        (segTokens_facts seg (hvalid seg (List.mem_cons_of_mem s hseg))).2 y hyseg |>.1
      have := hsrest seg hseg
      linarith
    · intro t ht
      rcases List.mem_append.mp ht with hcase | hcase
      · exact (hs.2 t hcase).2.1
      · exact ihm t hcase

end TGov

namespace TGov

theorem packTokensGo_chain (cfg : SubtitleConfig) :
    ∀ (ts : List Token) (b : Buf),
      b.start_time < b.end_time →
      (∀ t ∈ ts, t.start_time < t.end_time) →
      List.Chain' (fun a c => a.end_time ≤ c.start_time) ts →
      (∀ t ∈ ts.head?, b.end_time ≤ t.start_time) →
      (∀ c ∈ packTokensGo cfg (some b) ts, c.start_time < c.end_time) ∧
        List.Chain' (fun c c2 => c.end_time ≤ c2.start_time) (packTokensGo cfg (some b) ts) ∧
        (∀ c ∈ (packTokensGo cfg (some b) ts).head?, c.start_time = b.start_time) := by
  intro ts
  induction ts with
  | nil =>
    intro b hb _ _ _
    refine ⟨?_, ?_, ?_⟩
    · intro c hc
      rw [show packTokensGo cfg (some b) [] = [closeBuf b] from rfl] at hc
      rcases List.mem_singleton.mp hc with rfl
      exact hb
    · rw [show packTokensGo cfg (some b) [] = [closeBuf b] from rfl]
      exact List.chain'_singleton _
    · intro c hc
      rw [show packTokensGo cfg (some b) [] = [closeBuf b] from rfl] at hc
      simp at hc
      rw [← hc]
      rfl
  | cons t ts ih =>
    intro b hb hvalid hchain hhead
    have ht : t.start_time < t.end_time := hvalid t (List.mem_cons_self t ts)
    have hbt : b.end_time ≤ t.start_time := hhead t (by simp)
    have hchain2 : List.Chain' (fun a c => a.end_time ≤ c.start_time) ts := hchain.tail
    have hheadts : ∀ u ∈ ts.head?, t.end_time ≤ u.start_time := fun u hu => hchain.rel_head? hu
    have hvalid2 : ∀ u ∈ ts, u.start_time < u.end_time :=
      fun u hu => hvalid u (List.mem_cons_of_mem t hu)
    rw [packTokensGo]
    split_ifs with h1 h2
    · obtain ⟨ih1, ih2, ih3⟩ := ih (seedBuf t) ht hvalid2 hchain2
        (fun u hu => by rw [seedBuf]; exact hheadts u hu)
      refine ⟨?_, ?_, ?_⟩
      · intro c hc
        rcases List.mem_cons.mp hc with hcase | hcase
        · rw [hcase]; exact hb
        · exact ih1 c hcase
      · refine List.Chain'.cons' ih2 ?_
        intro y hy
        have hystart : y.start_time = t.start_time := by
          rw [ih3 y hy]; rfl
        rw [show (closeBuf b).end_time = b.end_time from rfl, hystart]
        exact hbt
      · intro c hc
        simp at hc
        rw [← hc]
        rfl
    · obtain ⟨ih1, ih2, ih3⟩ := ih (seedBuf t) ht hvalid2 hchain2
        (fun u hu => by rw [seedBuf]; exact hheadts u hu)
      refine ⟨?_, ?_, ?_⟩
      · intro c hc
        rcases List.mem_cons.mp hc with hcase | hcase
        · rw [hcase]; exact hb
        · exact ih1 c hcase
      · refine List.Chain'.cons' ih2 ?_
        intro y hy
        have hystart : y.start_time = t.start_time := by
          rw [ih3 y hy]; rfl
        rw [show (closeBuf b).end_time = b.end_time from rfl, hystart]
        exact hbt
      · intro c hc
        simp at hc
        rw [← hc]
        rfl
    · have hb2 : b.start_time < t.end_time := by linarith
      obtain ⟨ih1, ih2, ih3⟩ := ih { b with end_time := t.end_time, tokens := b.tokens ++ [t] }
        hb2 hvalid2 hchain2 (fun u hu => hheadts u hu)
      exact ⟨ih1, ih2, fun c hc => ih3 c hc⟩

theorem packTokens_chain (cfg : SubtitleConfig) (ts : List Token)
    (hvalid : ∀ t ∈ ts, t.start_time < t.end_time)
    (hchain : List.Chain' (fun a c => a.end_time ≤ c.start_time) ts) :
    (∀ c ∈ packTokens cfg ts, c.start_time < c.end_time) ∧
      List.Chain' (fun c c2 => c.end_time ≤ c2.start_time) (packTokens cfg ts) := by
  cases ts with
  | nil => exact ⟨by simp [packTokens, packTokensGo], List.chain'_nil⟩
  | cons t ts =>
    have ht : t.start_time < t.end_time := hvalid t (List.mem_cons_self t ts)
    obtain ⟨h1, h2, _⟩ := packTokensGo_chain cfg ts (seedBuf t) ht
      (fun u hu => hvalid u (List.mem_cons_of_mem t hu)) hchain.tail
      (fun u hu => by rw [seedBuf]; exact hchain.rel_head? hu)
    rw [packTokens, show packTokensGo cfg none (t :: ts) =
      packTokensGo cfg (some (seedBuf t)) ts from rfl]
    exact ⟨h1, h2⟩

end TGov

/-- C2 (amended): for every track the pipeline produces from a validated
segment sequence whose time spans are non-overlapping (each loaded
segment ends no later than the next begins - the monotone-stream premise
of the spec), the cues are strictly ordered by start_time and
non-overlapping: cue i's end_time is at most cue i+1's start_time.
Overlapping input segments, which the loader accepts, can violate this. -/
theorem claim_C2_nonoverlap (cfg : TGov.SubtitleConfig) (raw segs : List TGov.Segment)
    (hload : TGov.loadSegments raw = Except.ok segs)
    (hsep : List.Chain' (fun a b => a.end_time ≤ b.start_time) segs) :
    List.Chain' (fun c c2 => c.end_time ≤ c2.start_time) ((TGov.buildTrack cfg segs).cues) ∧
      List.Chain' (fun c c2 => c.start_time < c2.start_time) ((TGov.buildTrack cfg segs).cues) := by
  have hvalid : ∀ s ∈ segs, s.start_time < s.end_time := by
    intro s hs
    rw [TGov.loadSegments] at hload
    by_cases hbad : (raw.any (fun s => s.end_time ≤ s.start_time)) = true
    · rw [if_pos hbad] at hload
      exact absurd hload (by simp)
    · rw [if_neg hbad] at hload
      simp only [Except.ok.injEq] at hload
      have hmem : s ∈ raw := by
        rw [← hload] at hs
        have := (List.mem_insertionSort TGov.segLe).mp hs
        exact (List.mem_filter.mp this).1
      have hfalse := List.any_eq_false.mp (Bool.eq_false_iff.mpr hbad) s hmem
      simp at hfalse
      exact hfalse
  obtain ⟨hstream_chain, hstream_valid⟩ := TGov.tokenStream_chain segs hvalid hsep
  obtain ⟨hcv, hcc⟩ := TGov.packTokens_chain cfg (TGov.tokenStream segs) hstream_valid hstream_chain
  have htimes := TGov.assignIdx_times 1 (TGov.packTokens cfg (TGov.tokenStream segs))
  have hchain_tr : List.Chain' (fun c c2 => c.end_time ≤ c2.start_time)
      ((TGov.buildTrack cfg segs).cues) := by
    rw [TGov.buildTrack]
    have h1 : List.Chain' (fun x y : ℚ × ℚ => x.2 ≤ y.1)
        ((TGov.packTokens cfg (TGov.tokenStream segs)).map (fun c => (c.start_time, c.end_time))) :=
      (List.chain'_map _).mpr hcc
    rw [← htimes] at h1
    exact (List.chain'_map _).mp h1
  refine ⟨hchain_tr, ?_⟩
  have hvalid_tr : ∀ c ∈ (TGov.buildTrack cfg segs).cues, c.start_time < c.end_time := by
    intro c hc
    rw [TGov.buildTrack] at hc
    have hpair : (c.start_time, c.end_time) ∈
        ((TGov.packTokens cfg (TGov.tokenStream segs)).map (fun c => (c.start_time, c.end_time))) := by
      rw [← htimes]
      exact List.mem_map.mpr ⟨c, hc, rfl⟩
    obtain ⟨c0, hc0, heq⟩ := List.mem_map.mp hpair
    have h1 : c0.start_time = c.start_time := congrArg Prod.fst heq
    have h2 : c0.end_time = c.end_time := congrArg Prod.snd heq
    rw [← h1, ← h2]
    exact hcv c0 hc0
  have := List.Chain'.iff_mem.mp hchain_tr
  refine (this.imp ?_)
  intro a b hab
  obtain ⟨ha, hb, hr⟩ := hab
  have := hvalid_tr a ha
  linarith

namespace TGov

theorem joinSp_append_singleton : ∀ (ws : List String) (w : String), ws ≠ [] →
    joinSp (ws ++ [w]) = joinSp ws ++ " " ++ w := by
  intro ws
  induction ws with
  | nil => intro w h; exact absurd rfl h
  | cons w0 ws ih =>
    intro w _
    cases ws with
    | nil => rfl
    | cons w1 rest =>
      rw [joinSp_cons2 w0 w1 rest]
      rw [show (w0 :: w1 :: rest) ++ [w] = w0 :: w1 :: (rest ++ [w]) from rfl]
      rw [joinSp_cons2 w0 w1 (rest ++ [w])]
      rw [show w1 :: (rest ++ [w]) = (w1 :: rest) ++ [w] from rfl]
      rw [ih w (by simp)]
      simp [String.append_assoc]

theorem bufText_extend (b : Buf) (t : Token) (hb : b.tokens ≠ []) :
    bufText { b with end_time := t.end_time, tokens := b.tokens ++ [t] } =
      bufText b ++ " " ++ t.text := by
  rw [bufText, bufText]
  simp only [List.map_append, List.map_cons, List.map_nil]
  rw [joinSp_append_singleton (b.tokens.map Token.text) t.text (by simpa using hb)]

theorem packTokensGo_bounds (cfg : SubtitleConfig) :
    ∀ (ts : List Token) (b : Buf),
      b.tokens ≠ [] →
      (2 ≤ b.tokens.length →
        b.end_time - b.start_time ≤ cfg.max_duration ∧
        (bufText b).length + labelLen cfg b.speaker_id ≤ cfg.max_length) →
      ∀ c ∈ packTokensGo cfg (some b) ts,
        c.tokens ≠ [] ∧
          (2 ≤ c.tokens.length →
            c.end_time - c.start_time ≤ cfg.max_duration ∧
            (cueRawText c).length + labelLen cfg c.speaker_id ≤ cfg.max_length) := by
  intro ts
  induction ts with
  | nil =>
    intro b hbne hbok c hc
    rw [show packTokensGo cfg (some b) [] = [closeBuf b] from rfl] at hc
    rcases List.mem_singleton.mp hc with rfl
    exact ⟨hbne, hbok⟩
  | cons t ts ih =>
    intro b hbne hbok c hc
    rw [packTokensGo] at hc
    split_ifs at hc with h1 h2
    · rcases List.mem_cons.mp hc with hcase | hcase
      · rw [hcase]
        exact ⟨hbne, hbok⟩
      · exact ih (seedBuf t) (by simp [seedBuf]) (by simp [seedBuf]) c hcase
    · rcases List.mem_cons.mp hc with hcase | hcase
      · rw [hcase]
        exact ⟨hbne, hbok⟩
      · exact ih (seedBuf t) (by simp [seedBuf]) (by simp [seedBuf]) c hcase
    · push_neg at h2
      obtain ⟨hdur, hlen⟩ := h2
      refine ih _ (by simp) ?_ c hc
      intro _
      constructor
      · simpa using hdur
      · rw [bufText_extend b t hbne]
        simpa using hlen

end TGov

/-- C3: every multi-token cue the segmenter produces satisfies both
limits - its duration is at most max_duration and its rendered text
length (speaker label included when the option is on) is at most
max_length - while a single-token cue may exceed either bound but its
text is exactly its token's text, never split or truncated. -/
theorem claim_C3_bounded_packing (cfg : TGov.SubtitleConfig) (ts : List TGov.Token)
    (c : TGov.Cue) (hc : c ∈ TGov.packTokens cfg ts) :
    (2 ≤ c.tokens.length →
      c.end_time - c.start_time ≤ cfg.max_duration ∧
      (TGov.cueDisplayText cfg.speakerLabelOn c).length ≤ cfg.max_length) ∧
    (∀ t : TGov.Token, c.tokens = [t] → TGov.cueRawText c = t.text) := by
  have hdisp : (TGov.cueDisplayText cfg.speakerLabelOn c).length =
      (TGov.cueRawText c).length + TGov.labelLen cfg c.speaker_id := by
    cases hsp : c.speaker_id with
    | none => simp [TGov.cueDisplayText, TGov.labelLen, hsp]
    | some s =>
      by_cases hon : cfg.speakerLabelOn = true
      · simp only [TGov.cueDisplayText, TGov.labelLen, hsp, hon, if_true]
        rw [String.length_append, String.length_append]
        rw [show (": " : String).length = 2 from rfl]
        omega
      · have hon2 : cfg.speakerLabelOn = false := Bool.eq_false_iff.mpr hon
        simp [TGov.cueDisplayText, TGov.labelLen, hsp, hon2]
  constructor
  · intro hlen2
    cases ts with
    | nil =>
      rw [TGov.packTokens, show TGov.packTokensGo cfg none [] = [] from rfl] at hc
      simp at hc
    | cons t ts2 =>
      rw [TGov.packTokens, show TGov.packTokensGo cfg none (t :: ts2) =
        TGov.packTokensGo cfg (some (TGov.seedBuf t)) ts2 from rfl] at hc
      have := TGov.packTokensGo_bounds cfg ts2 (TGov.seedBuf t)
        (by simp [TGov.seedBuf]) (by simp [TGov.seedBuf]) c hc
      obtain ⟨hd, hl⟩ := this.2 hlen2
      exact ⟨hd, by rw [hdisp]; exact hl⟩
  · intro t htok
    rw [TGov.cueRawText, htok]
    rfl

namespace TGov

theorem packTokensGo_speaker (cfg : SubtitleConfig) :
    ∀ (ts : List Token) (b : Buf), (∀ t ∈ b.tokens, t.speaker_id = b.speaker_id) →
      ∀ c ∈ packTokensGo cfg (some b) ts, ∀ t ∈ c.tokens, t.speaker_id = c.speaker_id := by
  intro ts
  induction ts with
  | nil =>
    intro b hbsp c hc
    rw [show packTokensGo cfg (some b) [] = [closeBuf b] from rfl] at hc
    rcases List.mem_singleton.mp hc with rfl
    exact hbsp
  | cons t ts ih =>
    intro b hbsp c hc
    rw [packTokensGo] at hc
    split_ifs at hc with h1 h2
    · rcases List.mem_cons.mp hc with hcase | hcase
      · rw [hcase]; exact hbsp
      · exact ih (seedBuf t) (by simp [seedBuf]) c hcase
    · rcases List.mem_cons.mp hc with hcase | hcase
      · rw [hcase]; exact hbsp
      · exact ih (seedBuf t) (by simp [seedBuf]) c hcase
    · push_neg at h1
      refine ih _ ?_ c hc
      intro u hu
      rcases List.mem_append.mp hu with hcase | hcase
      · exact hbsp u hcase
      · rcases List.mem_singleton.mp hcase with rfl
        exact h1

theorem packTokens_speaker (cfg : SubtitleConfig) (ts : List Token) (c : Cue)
    (hc : c ∈ packTokens cfg ts) : ∀ t ∈ c.tokens, t.speaker_id = c.speaker_id := by
  cases ts with
  | nil =>
    rw [packTokens, show packTokensGo cfg none [] = [] from rfl] at hc
    simp at hc
  | cons t ts =>
    rw [packTokens, show packTokensGo cfg none (t :: ts) =
      packTokensGo cfg (some (seedBuf t)) ts from rfl] at hc
    exact packTokensGo_speaker cfg ts (seedBuf t) (by simp [seedBuf]) c hc

theorem wordSpans_hi_there : wordSpans ("hi there") = [(("hi"), 0, 2), (("there"), 3, 8)] := by
  rw [wordSpans, show ("hi there" : String).data = ['h','i',' ','t','h','e','r','e'] from rfl]
  simp [wordSpansGo]

theorem wordSpans_how_are_you :
    wordSpans ("how are you") = [(("how"), 0, 3), (("are"), 4, 7), (("you"), 8, 11)] := by
  rw [wordSpans, show ("how are you" : String).data =
    ['h','o','w',' ','a','r','e',' ','y','o','u'] from rfl]
  simp [wordSpansGo]

theorem wordSpans_a_b : wordSpans ("a b") = [(("a"), 0, 1), (("b"), 2, 3)] := by
  rw [wordSpans, show ("a b" : String).data = ['a',' ','b'] from rfl]
  simp [wordSpansGo]

theorem wordSpans_a : wordSpans ("a") = [(("a"), 0, 1)] := by
  rw [wordSpans, show ("a" : String).data = ['a'] from rfl]
  simp [wordSpansGo]

theorem wordSpans_b : wordSpans ("b") = [(("b"), 0, 1)] := by
  rw [wordSpans, show ("b" : String).data = ['b'] from rfl]
  simp [wordSpansGo]

theorem wordSpans_c : wordSpans ("c") = [(("c"), 0, 1)] := by
  rw [wordSpans, show ("c" : String).data = ['c'] from rfl]
  simp [wordSpansGo]

theorem wordSpans_hi : wordSpans ("hi") = [(("hi"), 0, 2)] := by
  rw [wordSpans, show ("hi" : String).data = ['h','i'] from rfl]
  simp [wordSpansGo]

theorem eval_twoSpeakers :
    create_track cfgWide rawTwoSpeakers = Except.ok
      { cues := [{ index := 1, start_time := 0, end_time := 2, speaker_id := some ("A"),
                   tokens := [{ text := ("hi"), speaker_id := some ("A"), start_time := 0, end_time := 1/2 },
                              { text := ("there"), speaker_id := some ("A"), start_time := 3/4, end_time := 2 }] },
                 { index := 2, start_time := 2, end_time := 4, speaker_id := some ("B"),
                   tokens := [{ text := ("how"), speaker_id := some ("B"), start_time := 2, end_time := 28/11 },
                              { text := ("are"), speaker_id := some ("B"), start_time := 30/11, end_time := 36/11 },
                              { text := ("you"), speaker_id := some ("B"), start_time := 38/11, end_time := 4 }] }],
        format := SubFormat.srt, speakerLabelOn := false } := by
  norm_num [create_track, loadSegments, rawTwoSpeakers, cfgWide, isBlank, buildTrack,
    tokenStream, segTokens, packTokens, packTokensGo, assignIdx, seedBuf, closeBuf,
    bufText, joinSp, labelLen, wordSpans_hi_there, wordSpans_how_are_you,
    List.insertionSort, List.orderedInsert, segLe, Except.map, List.flatMap,
    show ("hi there" : String).length = 8 from rfl,
    show ("how are you" : String).length = 11 from rfl,
    show ("hi" : String).length = 2 from rfl,
    show ("there" : String).length = 5 from rfl,
    show ("how" : String).length = 3 from rfl,
    show ("are" : String).length = 3 from rfl,
    show ("you" : String).length = 3 from rfl,
    show (" " : String).length = 1 from rfl,
    show ¬(("B" : String) = ("A")) from by decide]

end TGov

/-- C4: no cue contains tokens from more than one speaker: every token of
every cue the segmenter produces carries the cue's speaker_id (a speaker
change always forces a cue break); in particular the concrete two-speaker
back-to-back input produces exactly two cues split at the t = 2 speaker
boundary. -/
theorem claim_C4_speaker_integrity :
    (∀ (cfg : TGov.SubtitleConfig) (ts : List TGov.Token) (c : TGov.Cue),
        c ∈ TGov.packTokens cfg ts → ∀ t ∈ c.tokens, t.speaker_id = c.speaker_id) ∧
      (TGov.create_track TGov.cfgWide TGov.rawTwoSpeakers).map
          (fun tr => tr.cues.map (fun c => (c.speaker_id, c.start_time, c.end_time))) =
        Except.ok [(some ("A"), (0 : ℚ), (2 : ℚ)), (some ("B"), 2, 4)] := by
  constructor
  · intro cfg ts c hc
    exact TGov.packTokens_speaker cfg ts c hc
  · rw [TGov.eval_twoSpeakers]
    rfl

/-- C4 witness: a concrete cue of a concrete packing, whose single token
carries the cue's speaker. -/
theorem claim_C4_speaker_integrity_witness :
    ({ text := ("hi"), speaker_id := some ("A"), start_time := 0, end_time := 1 } : TGov.Token).speaker_id =
      ({ index := 0, start_time := 0, end_time := 1, speaker_id := some ("A"),
         tokens := [{ text := ("hi"), speaker_id := some ("A"), start_time := 0, end_time := 1 }] } : TGov.Cue).speaker_id :=
  claim_C4_speaker_integrity.1 TGov.cfgWide
    [{ text := ("hi"), speaker_id := some ("A"), start_time := 0, end_time := 1 }]
    { index := 0, start_time := 0, end_time := 1, speaker_id := some ("A"),
      tokens := [{ text := ("hi"), speaker_id := some ("A"), start_time := 0, end_time := 1 }] }
    (List.mem_singleton.mpr rfl)
    { text := ("hi"), speaker_id := some ("A"), start_time := 0, end_time := 1 }
    (List.mem_singleton.mpr rfl)

/-- C5 (amended): for every validated segment, the token expander produces
tokens in textual order whose time spans are non-overlapping and contained
in [segment.start_time, segment.end_time], each word receiving the
character-proportional interpolation times of its offsets; the spans are
not contiguous and their union is not all of the segment span whenever
the text has separating whitespace, since the interpolation leaves a gap
over each separator (see the counterexample). -/
theorem claim_C5_token_expander (seg : TGov.Segment) (hvalid : seg.start_time < seg.end_time) :
    List.Chain' (fun a b => a.end_time ≤ b.start_time) (TGov.segTokens seg) ∧
      (∀ t ∈ TGov.segTokens seg,
        seg.start_time ≤ t.start_time ∧ t.start_time < t.end_time ∧ t.end_time ≤ seg.end_time) ∧
      (TGov.segTokens seg).map TGov.Token.text = TGov.splitWS seg.text :=
  ⟨(TGov.segTokens_facts seg hvalid).1, (TGov.segTokens_facts seg hvalid).2,
    TGov.segTokens_texts seg⟩

/-- C5 counterexample: on the segment "hi there" spanning [0, 8] the two
tokens get spans [0, 2] and [3, 8]: they are not contiguous, and the
point 5/2 lies inside the segment span but in neither token span, so the
union of the token spans is not [segment.start_time, segment.end_time]. -/
theorem claim_C5_counterexample :
    TGov.segTokens TGov.segGap =
      [{ text := ("hi"), speaker_id := some ("A"), start_time := 0, end_time := 2 },
       { text := ("there"), speaker_id := some ("A"), start_time := 3, end_time := 8 }] ∧
      TGov.segGap.start_time < TGov.segGap.end_time ∧
      ¬((2 : ℚ) = 3) ∧
      (TGov.segGap.start_time ≤ (5/2 : ℚ) ∧ (5/2 : ℚ) ≤ TGov.segGap.end_time) ∧
      ¬((5/2 : ℚ) ≤ 2) ∧ ¬((3 : ℚ) ≤ 5/2) := by
  refine ⟨?_, by norm_num [TGov.segGap], by norm_num, by norm_num [TGov.segGap], by norm_num, by norm_num⟩
  rw [TGov.segTokens]
  norm_num [TGov.segGap, TGov.wordSpans_hi_there,
    show ("hi there" : String).length = 8 from rfl]

/-- C5 witness: the amended claim instantiated at the concrete segment
"hi there" over [0, 8]. -/
theorem claim_C5_token_expander_witness :
    List.Chain' (fun a b => a.end_time ≤ b.start_time) (TGov.segTokens TGov.segGap) ∧
      (∀ t ∈ TGov.segTokens TGov.segGap,
        TGov.segGap.start_time ≤ t.start_time ∧ t.start_time < t.end_time ∧
          t.end_time ≤ TGov.segGap.end_time) ∧
      (TGov.segTokens TGov.segGap).map TGov.Token.text = TGov.splitWS TGov.segGap.text :=
  claim_C5_token_expander TGov.segGap (by norm_num [TGov.segGap])

/-- C6: the loader fails with TimeOrderError exactly when some input
segment has end_time <= start_time, and on such input the whole pipeline
fails before producing any track or serialized output. -/
theorem claim_C6_time_order_error (raw : List TGov.Segment) (cfg : TGov.SubtitleConfig) :
    (TGov.loadSegments raw = Except.error TGov.LoadError.TimeOrderError ↔
      ∃ s ∈ raw, s.end_time ≤ s.start_time) ∧
    ((∃ s ∈ raw, s.end_time ≤ s.start_time) →
      TGov.create_track cfg raw = Except.error TGov.LoadError.TimeOrderError ∧
        TGov.create_subtitles cfg raw = Except.error TGov.LoadError.TimeOrderError) := by
  have hiff : TGov.loadSegments raw = Except.error TGov.LoadError.TimeOrderError ↔
      ∃ s ∈ raw, s.end_time ≤ s.start_time := by
    constructor
    · intro h
      rw [TGov.loadSegments] at h
      by_cases hbad : (raw.any (fun s => s.end_time ≤ s.start_time)) = true
      · obtain ⟨s, hs, hp⟩ := List.any_eq_true.mp hbad
        exact ⟨s, hs, by simpa using hp⟩
      · rw [if_neg hbad] at h
        exact absurd h (by simp)
    · intro ⟨s, hs, hle⟩
      rw [TGov.loadSegments, if_pos (List.any_eq_true.mpr ⟨s, hs, by simpa using hle⟩)]
  refine ⟨hiff, ?_⟩
  intro hex
  have hload := hiff.mpr hex
  constructor
  · rw [TGov.create_track, hload]
    rfl
  · rw [TGov.create_subtitles, TGov.create_track, hload]
    rfl

namespace TGov

theorem str_append_empty (s : String) : s ++ ("") = s := by
  have h : s ++ ("") = String.mk (s.data ++ (("") : String).data) := by
    cases s
    rfl
  rw [h, show (("") : String).data = [] from rfl, List.append_nil]

theorem srtRender_fold (withLabel : Bool) : ∀ (cues : List Cue) (acc : String),
    cues.foldl
      (fun a c =>
        a ++ Nat.repr c.index ++ "\n" ++ srtTimeStamp c.start_time ++ " --> " ++
          srtTimeStamp c.end_time ++ "\n" ++ cueDisplayText withLabel c ++ "\n\n") acc =
      acc ++ strConcat (cues.map (srtBlockSpec withLabel)) := by
  intro cues
  induction cues with
  | nil =>
    intro acc
    rw [List.foldl_nil, List.map_nil, strConcat, str_append_empty]
  | cons c cues ih =>
    intro acc
    rw [List.foldl_cons, ih, List.map_cons, strConcat, srtBlockSpec]
    simp [String.append_assoc]

theorem vttRender_fold (withLabel : Bool) : ∀ (cues : List Cue) (acc : String),
    cues.foldl
      (fun a c =>
        a ++ vttTimeStamp c.start_time ++ " --> " ++ vttTimeStamp c.end_time ++ "\n" ++
          cueDisplayText withLabel c ++ "\n\n") acc =
      acc ++ strConcat (cues.map (vttBlockSpec withLabel)) := by
  intro cues
  induction cues with
  | nil =>
    intro acc
    rw [List.foldl_nil, List.map_nil, strConcat, str_append_empty]
  | cons c cues ih =>
    intro acc
    rw [List.foldl_cons, ih, List.map_cons, strConcat, vttBlockSpec]
    simp [String.append_assoc]

theorem msTotal_hours (t : ℚ) (ht : 0 ≤ t) : msTotal t / 3600000 = ⌊t / 3600⌋₊ := by
  rw [msTotal, Int.floor_toNat]
  have harg : t * 1000 / ((3600000 : ℕ) : ℚ) = t / 3600 := by
    push_cast
    ring
  rw [show (3600000 : ℕ) = 3600000 from rfl, ← Nat.floor_div_nat (t * 1000) 3600000, harg]

end TGov

/-- C8: the SRT emitter writes, for each cue, an index line, a timestamp
line HH:MM:SS,mmm --> HH:MM:SS,mmm with comma-separated zero-padded
milliseconds, the cue text and a blank separator line; the VTT emitter
starts with a WEBVTT header line plus blank line and writes
HH:MM:SS.mmm --> HH:MM:SS.mmm timestamp lines with a period separator
and no cue-number line; minutes and seconds stay below 60, milliseconds
below 1000, each zero-padded to fixed width, while the hours field
carries the full hour count (it may exceed 24). -/
theorem claim_C8_emitter_shape (withLabel : Bool) (cues : List TGov.Cue) (t : ℚ) (ht : 0 ≤ t) :
    TGov.srtRender withLabel cues = TGov.strConcat (cues.map (TGov.srtBlockSpec withLabel)) ∧
    TGov.vttRender withLabel cues =
      ("WEBVTT\n\n") ++ TGov.strConcat (cues.map (TGov.vttBlockSpec withLabel)) ∧
    TGov.srtTimeStamp t =
      TGov.hoursRepr (TGov.msTotal t / 3600000) ++ ":" ++
        TGov.twoDig (TGov.msTotal t % 3600000 / 60000) ++ ":" ++
        TGov.twoDig (TGov.msTotal t % 60000 / 1000) ++ (",") ++
        TGov.threeDig (TGov.msTotal t % 1000) ∧
    TGov.vttTimeStamp t =
      TGov.hoursRepr (TGov.msTotal t / 3600000) ++ ":" ++
        TGov.twoDig (TGov.msTotal t % 3600000 / 60000) ++ ":" ++
        TGov.twoDig (TGov.msTotal t % 60000 / 1000) ++ (".") ++
        TGov.threeDig (TGov.msTotal t % 1000) ∧
    TGov.msTotal t % 3600000 / 60000 < 60 ∧
    TGov.msTotal t % 60000 / 1000 < 60 ∧
    TGov.msTotal t % 1000 < 1000 ∧
    (TGov.twoDig (TGov.msTotal t % 3600000 / 60000)).length = 2 ∧
    (TGov.twoDig (TGov.msTotal t % 60000 / 1000)).length = 2 ∧
    (TGov.threeDig (TGov.msTotal t % 1000)).length = 3 ∧
    TGov.msTotal t / 3600000 = ⌊t / 3600⌋₊ := by
  refine ⟨?_, ?_, rfl, rfl, ?_, ?_, ?_, rfl, rfl, rfl, TGov.msTotal_hours t ht⟩
  · rw [TGov.srtRender, TGov.srtRender_fold]
    rw [show (("") : String) ++ TGov.strConcat (cues.map (TGov.srtBlockSpec withLabel)) =
      TGov.strConcat (cues.map (TGov.srtBlockSpec withLabel)) from ?_]
    have h : ∀ s : String, ("" : String) ++ s = s := by
      intro s
      have : (("") : String) ++ s = String.mk ((("") : String).data ++ s.data) := by
        cases s
        rfl
      rw [this, show (("") : String).data = [] from rfl, List.nil_append]
    exact h _
  · rw [TGov.vttRender, TGov.vttRender_fold]
  · have hm : TGov.msTotal t % 3600000 < 3600000 := Nat.mod_lt _ (by norm_num)
    omega
  · have hm : TGov.msTotal t % 60000 < 60000 := Nat.mod_lt _ (by norm_num)
    omega
  · exact Nat.mod_lt _ (by norm_num)

/-- C8 witness: the emitter shape at one cue and the time 90000.5 seconds,
whose hours field is 25 - beyond 24 - with minutes 0, seconds 0 and 500
milliseconds. -/
theorem claim_C8_emitter_shape_witness :
    TGov.srtRender false [] = TGov.strConcat (([] : List TGov.Cue).map (TGov.srtBlockSpec false)) ∧
    TGov.vttRender false [] =
      ("WEBVTT\n\n") ++ TGov.strConcat (([] : List TGov.Cue).map (TGov.vttBlockSpec false)) ∧
    TGov.srtTimeStamp (90000.5 : ℚ) =
      TGov.hoursRepr (TGov.msTotal (90000.5 : ℚ) / 3600000) ++ ":" ++
        TGov.twoDig (TGov.msTotal (90000.5 : ℚ) % 3600000 / 60000) ++ ":" ++
        TGov.twoDig (TGov.msTotal (90000.5 : ℚ) % 60000 / 1000) ++ (",") ++
        TGov.threeDig (TGov.msTotal (90000.5 : ℚ) % 1000) ∧
    TGov.vttTimeStamp (90000.5 : ℚ) =
      TGov.hoursRepr (TGov.msTotal (90000.5 : ℚ) / 3600000) ++ ":" ++
        TGov.twoDig (TGov.msTotal (90000.5 : ℚ) % 3600000 / 60000) ++ ":" ++
        TGov.twoDig (TGov.msTotal (90000.5 : ℚ) % 60000 / 1000) ++ (".") ++
        TGov.threeDig (TGov.msTotal (90000.5 : ℚ) % 1000) ∧
    TGov.msTotal (90000.5 : ℚ) % 3600000 / 60000 < 60 ∧
    TGov.msTotal (90000.5 : ℚ) % 60000 / 1000 < 60 ∧
    TGov.msTotal (90000.5 : ℚ) % 1000 < 1000 ∧
    (TGov.twoDig (TGov.msTotal (90000.5 : ℚ) % 3600000 / 60000)).length = 2 ∧
    (TGov.twoDig (TGov.msTotal (90000.5 : ℚ) % 60000 / 1000)).length = 2 ∧
    (TGov.threeDig (TGov.msTotal (90000.5 : ℚ) % 1000)).length = 3 ∧
    TGov.msTotal (90000.5 : ℚ) / 3600000 = ⌊(90000.5 : ℚ) / 3600⌋₊ :=
  claim_C8_emitter_shape false [] (90000.5 : ℚ) (by norm_num)

namespace TGov

theorem load_twoSpeakers : loadSegments rawTwoSpeakers = Except.ok rawTwoSpeakers := by
  norm_num [loadSegments, rawTwoSpeakers, isBlank, List.insertionSort, List.orderedInsert, segLe]

theorem eval_oneHi :
    create_track cfgWide rawOneHi = Except.ok
      { cues := [{ index := 1, start_time := 0, end_time := 1, speaker_id := some ("A"),
                   tokens := [{ text := ("hi"), speaker_id := some ("A"), start_time := 0, end_time := 1 }] }],
        format := SubFormat.srt, speakerLabelOn := false } := by
  norm_num [create_track, loadSegments, rawOneHi, cfgWide, isBlank, buildTrack,
    tokenStream, segTokens, packTokens, packTokensGo, assignIdx, seedBuf, closeBuf,
    bufText, joinSp, labelLen, wordSpans_hi,
    List.insertionSort, List.orderedInsert, segLe, Except.map, List.flatMap,
    show ("hi" : String).length = 2 from rfl]

theorem eval_unsorted :
    create_track cfgWide rawUnsorted = Except.ok
      { cues := [{ index := 1, start_time := 0, end_time := 3, speaker_id := some ("A"),
                   tokens := [{ text := ("a"), speaker_id := some ("A"), start_time := 0, end_time := 1 },
                              { text := ("b"), speaker_id := some ("A"), start_time := 2, end_time := 3 }] }],
        format := SubFormat.srt, speakerLabelOn := false } := by
  norm_num [create_track, loadSegments, rawUnsorted, cfgWide, isBlank, buildTrack,
    tokenStream, segTokens, packTokens, packTokensGo, assignIdx, seedBuf, closeBuf,
    bufText, joinSp, labelLen, wordSpans_a, wordSpans_b,
    List.insertionSort, List.orderedInsert, segLe, Except.map, List.flatMap,
    show ("a" : String).length = 1 from rfl,
    show ("b" : String).length = 1 from rfl,
    show (" " : String).length = 1 from rfl]

theorem eval_overlap :
    create_track cfgWide rawOverlap = Except.ok
      { cues := [{ index := 1, start_time := 0, end_time := 10, speaker_id := some ("A"),
                   tokens := [{ text := ("a"), speaker_id := some ("A"), start_time := 0, end_time := 10/3 },
                              { text := ("b"), speaker_id := some ("A"), start_time := 20/3, end_time := 10 }] },
                 { index := 2, start_time := 1, end_time := 2, speaker_id := some ("B"),
                   tokens := [{ text := ("c"), speaker_id := some ("B"), start_time := 1, end_time := 2 }] }],
        format := SubFormat.srt, speakerLabelOn := false } := by
  norm_num [create_track, loadSegments, rawOverlap, cfgWide, isBlank, buildTrack,
    tokenStream, segTokens, packTokens, packTokensGo, assignIdx, seedBuf, closeBuf,
    bufText, joinSp, labelLen, wordSpans_a_b, wordSpans_c,
    List.insertionSort, List.orderedInsert, segLe, Except.map, List.flatMap,
    show ("a b" : String).length = 3 from rfl,
    show ("c" : String).length = 1 from rfl,
    show ("a" : String).length = 1 from rfl,
    show ("b" : String).length = 1 from rfl,
    show (" " : String).length = 1 from rfl,
    show ¬(("B" : String) = ("A")) from by decide]

theorem eval_packPair : packTokens cfgWide [tokHi, tokYo] = [cuePair] := by
  norm_num [packTokens, packTokensGo, seedBuf, closeBuf, bufText, joinSp, labelLen, cfgWide,
    tokHi, tokYo, cuePair,
    show ("hi" : String).length = 2 from rfl,
    show ("yo" : String).length = 2 from rfl,
    show (" " : String).length = 1 from rfl]

end TGov

/-- C1 counterexample: on a validated but unsorted input the loader
re-sorts by start_time, so the track's word sequence is the time-sorted
one, not the original order: the claim as stated fails. -/
theorem claim_C1_coverage_counterexample :
    (TGov.create_track TGov.cfgWide TGov.rawUnsorted).map TGov.trackWords =
      Except.ok [("a"), ("b")] ∧
    TGov.rawUnsorted.flatMap (fun s => TGov.splitWS s.text) = [("b"), ("a")] ∧
    TGov.rawUnsorted ≠ [] ∧
    ¬(([("a"), ("b")] : List String) = [("b"), ("a")]) := by
  refine ⟨?_, ?_, by rw [TGov.rawUnsorted]; simp, by decide⟩
  · rw [TGov.eval_unsorted]
    simp only [Except.map, Except.ok.injEq]
    rw [TGov.trackWords]
    simp only [List.flatMap_cons, List.flatMap_nil, List.append_nil]
    rw [TGov.cueRawText]
    simp only [List.map_cons, List.map_nil]
    rw [show TGov.joinSp [("a"), ("b")] = ("a b") from rfl]
    rw [TGov.splitWS, TGov.wordSpans_a_b]
    rfl
  · rw [TGov.rawUnsorted]
    simp only [List.flatMap_cons, List.flatMap_nil, List.append_nil]
    rw [TGov.splitWS, TGov.splitWS, TGov.wordSpans_a, TGov.wordSpans_b]
    rfl

/-- C1 witness: the amended claim instantiated at a sorted one-segment
input. -/
theorem claim_C1_coverage_witness :
    TGov.trackWords
      { cues := [{ index := 1, start_time := 0, end_time := 1, speaker_id := some ("A"),
                   tokens := [{ text := ("hi"), speaker_id := some ("A"), start_time := 0, end_time := 1 }] }],
        format := TGov.SubFormat.srt, speakerLabelOn := false } =
      TGov.rawOneHi.flatMap (fun s => TGov.splitWS s.text) :=
  claim_C1_coverage TGov.cfgWide TGov.rawOneHi _
    (by rw [TGov.rawOneHi]; simp)
    (by rw [TGov.rawOneHi]; exact List.sorted_singleton _)
    TGov.eval_oneHi

/-- C2 counterexample: overlapping validated segments produce a pipeline
track whose cue time spans are [(0, 10), (1, 2)]: cue 1 ends at 10 but
cue 2 starts at 1, so the cues are neither non-overlapping nor ordered
by start_time. -/
theorem claim_C2_nonoverlap_counterexample :
    (TGov.create_track TGov.cfgWide TGov.rawOverlap).map
        (fun tr => tr.cues.map (fun c => (c.start_time, c.end_time))) =
      Except.ok [((0 : ℚ), (10 : ℚ)), (1, 2)] ∧
    ¬((10 : ℚ) ≤ 1) ∧
    ¬(List.Chain' (fun x y : ℚ × ℚ => x.2 ≤ y.1) [((0 : ℚ), (10 : ℚ)), (1, 2)]) := by
  refine ⟨?_, by norm_num, ?_⟩
  · rw [TGov.eval_overlap]
    rfl
  · intro hch
    have := List.chain'_pair.mp hch
    norm_num at this

/-- C2 witness: the amended claim instantiated at the two back-to-back
(non-overlapping) speaker segments. -/
theorem claim_C2_nonoverlap_witness :
    List.Chain' (fun c c2 => c.end_time ≤ c2.start_time)
      ((TGov.buildTrack TGov.cfgWide TGov.rawTwoSpeakers).cues) ∧
    List.Chain' (fun c c2 => c.start_time < c2.start_time)
      ((TGov.buildTrack TGov.cfgWide TGov.rawTwoSpeakers).cues) :=
  claim_C2_nonoverlap TGov.cfgWide TGov.rawTwoSpeakers TGov.rawTwoSpeakers TGov.load_twoSpeakers
    (by rw [TGov.rawTwoSpeakers]; exact List.chain'_pair.mpr (by norm_num))

/-- C3 witness: the bounds at the concrete two-token cue the packer
produces under the generous limits. -/
theorem claim_C3_bounded_packing_witness :
    ((2 ≤ TGov.cuePair.tokens.length →
        TGov.cuePair.end_time - TGov.cuePair.start_time ≤ TGov.cfgWide.max_duration ∧
          (TGov.cueDisplayText TGov.cfgWide.speakerLabelOn TGov.cuePair).length ≤
            TGov.cfgWide.max_length) ∧
      (∀ t : TGov.Token, TGov.cuePair.tokens = [t] → TGov.cueRawText TGov.cuePair = t.text)) :=
  claim_C3_bounded_packing TGov.cfgWide [TGov.tokHi, TGov.tokYo] TGov.cuePair
    (by rw [TGov.eval_packPair]; exact List.mem_singleton.mpr rfl)

/-- C6 witness: a segment with end_time = start_time makes the whole
pipeline fail with TimeOrderError and produce no serialized output. -/
theorem claim_C6_time_order_error_witness :
    TGov.create_track TGov.cfgWide TGov.rawBad = Except.error TGov.LoadError.TimeOrderError ∧
      TGov.create_subtitles TGov.cfgWide TGov.rawBad = Except.error TGov.LoadError.TimeOrderError :=
  (claim_C6_time_order_error TGov.rawBad TGov.cfgWide).2
    ⟨{ speaker_id := some ("A"), text := ("x"), start_time := 5, end_time := 5 },
      by rw [TGov.rawBad]; exact List.mem_singleton.mpr rfl, by norm_num⟩
